import Mathlib

/-!
Verification development for the DOVAH streaming feature pipeline.

Shallow embedding of:
* `src/stream/features.py` — event-time windowing (`stream_processor`) and
  per-window feature extraction (`process_window`);
* `src/fusion/late_fusion.py` — the late-fusion combiner (`combine_scores`);
* `src/models/anomaly/iforest.py` — batch normalization of raw anomaly scores;
* `src/models/log_lm/score.py` — the add-k smoothed n-gram `PerplexityScorer`.

Python `datetime`/`timedelta` arithmetic is exact integer arithmetic at
microsecond resolution, so event times, window sizes and strides are
modelled as `ℤ` (one unit = one tick of that clock; the concrete scenarios
below use seconds, which is the same model up to a constant scale).  Scores
and ratios the code computes by float division over rational inputs are
modelled with `ℚ`; quantities whose definition needs transcendental
functions (`log2`, `exp`, `2**x`) use `ℝ`.  A Python float that can be
`None`/non-finite is modelled as `Option ℚ` (`none` = absent or
non-finite); a float expression that evaluates to `nan` (such as `0/0`
during min-max normalization) is modelled as `none : Option ℝ`.
-/

namespace DOVAH

/-! ### Events

An input line of `stream_processor` either parses and passes schema validation
(`some e`) or is malformed (`none`) and skipped with a warning
(features.py lines 165-184).  The fields below are the ones the windowing
engine reads; `session` is carried but never used by windowing, as in the
source. -/

structure Ev where
  ts : ℤ                -- event_ts (parsed "timestamp"), in integer time units
  template : ℕ          -- template_id
  component : Option ℕ  -- component (may be absent/falsy)
  session : ℕ           -- session_id (unused by windowing)
deriving DecidableEq, Repr

/-- Valid (parseable, schema-passing) events of an input stream. -/
def validEvents (input : List (Option Ev)) : List Ev := input.filterMap id

/-! ### Small helpers shared by the feature extractor -/

/-- `min` of a list of timestamps (only applied to non-empty windows). -/
def qmin : List ℤ → ℤ
  | [] => 0
  | x :: xs => xs.foldl min x

/-- `max` of a list of timestamps (only applied to non-empty windows). -/
def qmax : List ℤ → ℤ
  | [] => 0
  | x :: xs => xs.foldl max x

/-- Python `round` ties-to-even on an exact rational. -/
def roundHalfEvenInt (x : ℚ) : ℤ :=
  let f := ⌊x⌋
  let r := x - f
  if r < 1/2 then f
  else if 1/2 < r then f + 1
  else if f % 2 = 0 then f else f + 1

/-- `round(x, 4)` of features.py line 90, on the exact rational value. -/
def round4 (x : ℚ) : ℚ := (roundHalfEvenInt (x * 10000) : ℚ) / 10000

/-- `len(a - b)` for sets represented as duplicate-free lists. -/
def setDiffCard (a b : List ℕ) : ℕ := (a.filter (fun x => !b.contains x)).length

/-- `a.update(b)` for sets represented as duplicate-free lists. -/
def setUnion (a b : List ℕ) : List ℕ := a ++ b.dedup.filter (fun x => !a.contains x)

/-- Number of template ids occurring exactly once in the window:
`sum(1 for c in template_counts.values() if c == 1)` (features.py line 60). -/
def singletonTemplateCount (evs : List Ev) : ℕ :=
  ((evs.map Ev.template).dedup.filter (fun t => (evs.map Ev.template).count t = 1)).length

/-- Burst comparison `event_count > avg + 2*std` (features.py line 77), with
`std` the population standard deviation (`np.std`).  Encoded in the equivalent
square form, avoiding the irrational square root:
`c > μ + 2·σ  ↔  c > μ ∧ (c－μ)² > 4·σ²`. -/
def burstExceeds (recent : List ℕ) (c : ℕ) : Bool :=
  let n : ℚ := recent.length
  let avg : ℚ := (recent.map (fun x => (x : ℚ))).sum / n
  let var : ℚ := (recent.map (fun x => ((x : ℚ) - avg) ^ 2)).sum / n
  decide (avg < (c : ℚ)) && decide (4 * var < ((c : ℚ) - avg) ^ 2)

/-! ### `process_window` (features.py lines 39-121)

Wall-clock latency fields (`emit_ts`, `lat_ms`) depend on `datetime.now` and
are outside this model; every field computed from the window and the CEP state
is included. -/

structure FeatureRec where
  window_start : ℤ
  window_end : ℤ
  event_count : ℕ
  unique_templates : ℕ
  rare_template_rate : ℚ
  component_churn : ℕ
  is_burst : Bool
  is_unseen_template : Bool
  internal_components : List ℕ  -- feature_record["_internal"]["components"]
  internal_templates : List ℕ   -- feature_record["_internal"]["templates"]
deriving DecidableEq, Repr

def mkFeatureRec (window_events : List Ev) (prev_window_components : List ℕ)
    (seen_templates : List ℕ) (recent_event_counts : List ℕ) : FeatureRec :=
  let timestamps := window_events.map Ev.ts
  let event_count := window_events.length
  let current_window_templates := (window_events.map Ev.template).dedup
  let rare_rate : ℚ :=
    if 0 < event_count then (singletonTemplateCount window_events : ℚ) / event_count else 0
  let current_window_components := (window_events.filterMap Ev.component).dedup
  let component_churn :=
    setDiffCard current_window_components prev_window_components +
      setDiffCard prev_window_components current_window_components
  let is_unseen_template :=
    current_window_templates.any (fun t => !seen_templates.contains t)
  let is_burst :=
    !recent_event_counts.isEmpty && burstExceeds recent_event_counts event_count &&
      decide (20 < event_count)
  { window_start := qmin timestamps
    window_end := qmax timestamps
    event_count := event_count
    unique_templates := current_window_templates.length
    rare_template_rate := round4 rare_rate
    component_churn := component_churn
    is_burst := is_burst
    is_unseen_template := is_unseen_template
    internal_components := current_window_components
    internal_templates := current_window_templates }

/-- `process_window`: returns `{}` (here `none`) on an empty window. -/
def process_window (window_events : List Ev) (prev_window_components : List ℕ)
    (seen_templates : List ℕ) (recent_event_counts : List ℕ) : Option FeatureRec :=
  if window_events.isEmpty then none
  else some (mkFeatureRec window_events prev_window_components seen_templates
      recent_event_counts)

/-! ### `stream_processor` (features.py lines 124-239) -/

/-- One record written to stdout by the in-loop emission path, together with
the loop variables identifying the window (`next_window_start`, `window_end`)
and the events passed to `process_window`. -/
structure Emission where
  wstart : ℤ
  wend : ℤ
  events : List Ev
  record : FeatureRec
deriving DecidableEq, Repr

structure ProcState where
  events_buffer : List Ev
  next_window_start : Option ℤ
  prev_window_components : List ℕ
  seen_templates : List ℕ
  recent_event_counts : List ℕ
  emitted : List Emission
deriving DecidableEq, Repr

def initState : ProcState :=
  { events_buffer := []
    next_window_start := none
    prev_window_components := []
    seen_templates := []
    recent_event_counts := []
    emitted := [] }

/-- `recent_event_counts.append(c)` on a `deque(maxlen=10)`. -/
def pushRecent (l : List ℕ) (c : ℕ) : List ℕ :=
  let l2 := l ++ [c]
  l2.drop (l2.length - 10)

/-- Exact number of iterations of the
`while event_ts >= next_window_start + window_size` loop for a positive
stride: `0` if the guard fails, else `⌊(event_ts − next − size)/stride⌋ + 1`
(`Int.fdiv` is floor division). -/
def iterCount (size stride event_ts next : ℤ) : ℕ :=
  if event_ts < next + size then 0
  else ((event_ts - next - size).fdiv stride + 1).toNat

/-- The emission block of one loop iteration (features.py lines 202-216):
if the window is non-empty, process it, write the record to the output and
update the CEP state (`prev_window_components` replaced, `seen_templates`
absorbed, `recent_event_counts` pushed). -/
def sweepEmit (size next : ℤ) (st : ProcState) (events_in_window : List Ev) : ProcState :=
  if events_in_window.isEmpty then st
  else
    match process_window events_in_window st.prev_window_components
        st.seen_templates st.recent_event_counts with
    | some r =>
      { st with
        emitted := st.emitted ++ [⟨next, next + size, events_in_window, r⟩]
        prev_window_components := r.internal_components
        seen_templates := setUnion st.seen_templates r.internal_templates
        recent_event_counts := pushRecent st.recent_event_counts r.event_count }
    | none => st

/-- Body of the window-emission loop (features.py lines 194-223), recursing on
the iteration count computed by `iterCount`; the loop guard is re-checked each
iteration exactly as in the source.  Each iteration takes the buffered events
before `window_end`, runs the emission block, advances the window start by
the stride and prunes buffered events older than the new start. -/
def sweep (size stride event_ts : ℤ) : ℕ → ℤ → ProcState → ℤ × ProcState
  | 0, next, st => (next, st)
  | fuel + 1, next, st =>
    if event_ts < next + size then (next, st)
    else
      let st1 := sweepEmit size next st
        (st.events_buffer.takeWhile (fun e => decide (e.ts < next + size)))
      let next' := next + stride
      let st2 :=
        { st1 with events_buffer := st1.events_buffer.dropWhile (fun e => decide (e.ts < next')) }
      sweep size stride event_ts fuel next' st2

lemma sweepEmit_events_buffer (size next : ℤ) (st : ProcState) (evw : List Ev) :
    (sweepEmit size next st evw).events_buffer = st.events_buffer := by
  unfold sweepEmit
  split
  · rfl
  · split <;> rfl

lemma sweepEmit_next_window_start (size next : ℤ) (st : ProcState) (evw : List Ev) :
    (sweepEmit size next st evw).next_window_start = st.next_window_start := by
  unfold sweepEmit
  split
  · rfl
  · split <;> rfl

/-- One loop turn of `for line in sys.stdin` (features.py lines 165-223):
skip a malformed line, otherwise anchor the first window, buffer the event,
and run the emission loop. -/
def ingest (size stride : ℤ) (st : ProcState) (ev : Option Ev) : ProcState :=
  match ev with
  | none => st
  | some e =>
    let next0 := st.next_window_start.getD e.ts
    let st1 := { st with events_buffer := st.events_buffer ++ [e], next_window_start := some next0 }
    let out := sweep size stride e.ts (iterCount size stride e.ts next0) next0 st1
    { out.2 with next_window_start := some out.1 }

structure RunResult where
  emissions : List Emission
  flushed : Option FeatureRec
deriving DecidableEq, Repr

/-- `stream_processor(window_size_sec, window_stride_sec)` on a finite input
stream, including the final flush (features.py lines 226-234). -/
def stream_processor (window_size_sec window_stride_sec : ℤ)
    (input : List (Option Ev)) : RunResult :=
  let st := input.foldl (ingest window_size_sec window_stride_sec) initState
  { emissions := st.emitted
    flushed :=
      if st.events_buffer.isEmpty then none
      else process_window st.events_buffer st.prev_window_components
        st.seen_templates st.recent_event_counts }

/-- Sum of `event_count` over everything the run wrote out (in-loop emissions
plus the final flush). -/
def totalEmittedCount (r : RunResult) : ℕ :=
  (r.emissions.map (fun em => em.record.event_count)).sum +
    (match r.flushed with
     | some fr => fr.event_count
     | none => 0)

/-! ### Late fusion (src/fusion/late_fusion.py)

Raw score inputs are `Option ℚ`: `none` models a Python `None` or a
non-finite float, which both branches of the source map to `0.0`
(late_fusion.py lines 43-44) or short-circuit inside `_scale`
(line 12). -/

structure ScaleParams where
  min : ℚ
  max : ℚ
deriving DecidableEq, Repr

structure ScalerParams where
  lm_score : ScaleParams
  iforest_score : ScaleParams
  epss_score : ScaleParams
deriving DecidableEq, Repr

structure Weights where
  lm : ℚ
  iforest : ℚ
  epss : ℚ
  kev : ℚ
deriving DecidableEq, Repr

def defaultScalerParams : ScalerParams :=
  { lm_score := ⟨0, 20⟩, iforest_score := ⟨0, 1⟩, epss_score := ⟨0, 1⟩ }

def defaultWeights : Weights := { lm := 3/10, iforest := 3/10, epss := 2/10, kev := 2/10 }

/-- `np.clip(x, lo, hi) = min(max(x, lo), hi)`, written with explicit
conditionals (`max x lo = if x < lo then lo else x`, then symmetrically for
the upper bound) so that the definition evaluates by kernel reduction. -/
def npClip (x lo hi : ℚ) : ℚ :=
  let y := if x < lo then lo else x
  if hi < y then hi else y

/-- `_scale` (late_fusion.py lines 10-14): `0` for a non-finite input or a
degenerate range, else the clamped affine rescale. -/
def pyScale (x : Option ℚ) (p : ScaleParams) : ℚ :=
  match x with
  | none => 0
  | some v => if p.max ≤ p.min then 0 else npClip ((v - p.min) / (p.max - p.min)) 0 1

/-- `max(epss_scores.values()) if epss_scores else 0.0`. -/
def pyMaxVals (l : List ℚ) : ℚ :=
  match l with
  | [] => 0
  | x :: xs => xs.foldl max x

structure Components where
  lm_score : ℚ
  iforest_score : ℚ
  epss_score : ℚ
  kev_score : ℚ
deriving DecidableEq, Repr

/-- `combine_scores` (late_fusion.py lines 16-62), pure part: the returned
`(final_score, components)` pair.  The intel map is a finite id→score list. -/
def combine_scores (lm_score iforest_score : Option ℚ) (epss_scores : List (ℕ × ℚ))
    (kev_cves : List ℕ) (scaler_params : ScalerParams) (weights : Weights) :
    ℚ × Components :=
  let lm : ℚ := lm_score.getD 0
  let iso : ℚ := iforest_score.getD 0
  let n_lm := pyScale (some lm) scaler_params.lm_score
  let n_iso := pyScale (some iso) scaler_params.iforest_score
  let max_epss := pyMaxVals (epss_scores.map Prod.snd)
  let n_epss := pyScale (some max_epss) scaler_params.epss_score
  let kev_hit := epss_scores.any (fun p => kev_cves.contains p.1)
  let n_kev : ℚ := if kev_hit then 1 else 0
  let final_score := npClip
    (weights.lm * n_lm + weights.iforest * n_iso + weights.epss * n_epss + weights.kev * n_kev)
    0 1
  (final_score, ⟨n_lm, n_iso, n_epss, n_kev⟩)

/-- Outcome of the optional DB upsert inside `combine_scores`
(late_fusion.py lines 64-82). -/
inductive SinkOutcome
  | noSink      -- no session/ts/session_id supplied: write skipped
  | writeOk     -- upsert succeeded
  | writeFails  -- upsert raised: caught by `except Exception: pass`
deriving DecidableEq, Repr

structure FusionCallResult where
  final_score : ℚ
  components : Components
  persisted : Bool
  reported_errors : List String  -- messages surfaced on the failure path
deriving DecidableEq, Repr

/-- `combine_scores` including the persistence attempt: the caught exception
branch is literally `pass` (late_fusion.py lines 80-82), so the failure path
persists nothing, surfaces nothing, and the in-memory result is returned. -/
def combine_scores_with_sink (lm_score iforest_score : Option ℚ)
    (epss_scores : List (ℕ × ℚ)) (kev_cves : List ℕ) (scaler_params : ScalerParams)
    (weights : Weights) (sink : SinkOutcome) : FusionCallResult :=
  let r := combine_scores lm_score iforest_score epss_scores kev_cves scaler_params weights
  match sink with
  | .noSink => ⟨r.1, r.2, false, []⟩
  | .writeOk => ⟨r.1, r.2, true, []⟩
  | .writeFails => ⟨r.1, r.2, false, []⟩

/-! ### Isolation-forest score normalization (src/models/anomaly/iforest.py,
`IForestModel.predict` lines 118-128)

The raw `score_samples` outputs are the input; the normalization to a
"probability-like" score is modelled exactly.  `none` models the IEEE `nan`
produced by numpy's `0/0` when the batch maximum equals the batch minimum
(every numerator `raw − min` is then `0` and the denominator is `0`). -/

def listMin : List ℝ → ℝ
  | [] => 0
  | x :: xs => xs.foldl min x

def listMax : List ℝ → ℝ
  | [] => 0
  | x :: xs => xs.foldl max x

noncomputable def iforest_normalize (raw_scores : List ℝ) : List (Option ℝ) :=
  if 1 < raw_scores.length then
    let mn := listMin raw_scores
    let mx := listMax raw_scores
    if mx - mn = 0 then raw_scores.map (fun _ => none)  -- 0/0 → nan, elementwise
    else raw_scores.map (fun r => some (1 - (r - mn) / (mx - mn)))
  else
    raw_scores.map (fun r => some (1 / (1 + Real.exp (-|r|))))

/-! ### PerplexityScorer (src/models/log_lm/score.py)

Template ids are `ℕ`; the `"<s>"` padding sentinel is `Tok.pad`.  The two
count tables are association lists mirroring the Python dicts: `dictGetD`
is `dict.get(key, 0)` (a pure read — the scorer reads with `.get`, never
with `defaultdict.__getitem__`), `dictIncr` is `defaultdict(int)[key] += 1`. -/

inductive Tok
  | pad
  | id (t : ℕ)
deriving DecidableEq, Repr

abbrev TokDict := List (List Tok × ℕ)

def dictGetD (d : TokDict) (k : List Tok) (v0 : ℕ) : ℕ :=
  match d.find? (fun p => decide (p.1 = k)) with
  | some p => p.2
  | none => v0

def dictIncr (d : TokDict) (k : List Tok) : TokDict :=
  if d.any (fun p => decide (p.1 = k)) then
    d.map (fun p => if p.1 = k then (p.1, p.2 + 1) else p)
  else d ++ [(k, 1)]

/-- `self.vocab.update(sequence)` for the vocabulary set. -/
def vocabUnion (vocab : List ℕ) (seq : List ℕ) : List ℕ :=
  vocab ++ seq.dedup.filter (fun t => !vocab.contains t)

/-- The n-grams `padded[i:i+n]` for `i in range(len(padded) - n + 1)`.
The bound is written `len + 1 - n` so that truncated `ℕ` subtraction agrees
with the Python expression for every `len ≥ n - 1`. -/
def ngramsOf (n : ℕ) (padded : List Tok) : List (List Tok) :=
  (List.range (padded.length + 1 - n)).map (fun i => (padded.drop i).take n)

structure PerplexityScorer where
  n : ℕ
  k : ℚ
  n_gram_counts : TokDict
  context_counts : TokDict
  vocab : List ℕ
deriving DecidableEq, Repr

/-- `PerplexityScorer.__init__` (score.py lines 10-24): `n < 2` raises
`ValueError` before any state is created. -/
def PerplexityScorer.init (n : ℕ) (smoothing_alpha : ℚ) :
    Except String PerplexityScorer :=
  if n < 2 then .error "n must be at least 2 for n-gram models."
  else .ok { n := n, k := smoothing_alpha, n_gram_counts := [], context_counts := [], vocab := [] }

/-- One sequence of `PerplexityScorer.fit` (score.py lines 30-37). -/
def fitSeq (m : PerplexityScorer) (sequence : List ℕ) : PerplexityScorer :=
  let m1 := { m with vocab := vocabUnion m.vocab sequence }
  let padded := List.replicate (m1.n - 1) Tok.pad ++ sequence.map Tok.id
  (ngramsOf m1.n padded).foldl
    (fun acc g =>
      { acc with
        n_gram_counts := dictIncr acc.n_gram_counts g
        context_counts := dictIncr acc.context_counts g.dropLast }) m1

def PerplexityScorer.fit (m : PerplexityScorer) (sequences : List (List ℕ)) :
    PerplexityScorer :=
  sequences.foldl fitSeq m

/-- The add-k probability of one n-gram (score.py line 61). -/
def probOf (m : PerplexityScorer) (g : List Tok) : ℚ :=
  ((dictGetD m.n_gram_counts g 0 : ℚ) + m.k) /
    ((dictGetD m.context_counts g.dropLast 0 : ℚ) + m.k * m.vocab.length)

/-- The scoring loop (score.py lines 54-67): accumulate `log2(prob)`, with the
early `return float('inf')` (modelled `none`) when some `prob ≤ 0`. -/
noncomputable def accumLogProb (m : PerplexityScorer) : List (List Tok) → ℝ → Option ℝ
  | [], log_prob => some log_prob
  | g :: rest, log_prob =>
    let prob := probOf m g
    if 0 < prob then accumLogProb m rest (log_prob + Real.logb 2 (prob : ℝ))
    else none

/-- `PerplexityScorer.score` (score.py lines 39-72), state-passing: the first
component is the model object after the call (the method only reads the count
tables, via `dict.get`). -/
noncomputable def PerplexityScorer.score (m : PerplexityScorer) (sequence : List ℕ) :
    PerplexityScorer × Option ℝ :=
  if sequence.isEmpty then (m, some 1)
  else if m.vocab.length = 0 then (m, some 1)
  else
    match accumLogProb m
        (ngramsOf m.n (List.replicate (m.n - 1) Tok.pad ++ sequence.map Tok.id)) 0 with
    | none => (m, none)  -- float('inf')
    | some log_prob => (m, some ((2 : ℝ) ^ (-log_prob / (sequence.length : ℝ))))

/-! ### Concrete streams used by the closed theorems -/

/-- A valid event for session 1 on component 1. -/
def mkEv (t : ℤ) (tpl : ℕ) : Option Ev := some ⟨t, tpl, some 1, 1⟩

/-- 12 valid events of one session spanning 65 seconds: 11 events in `[0, 50]`
and one event at `t = 64` carrying template 3, which occurs in no earlier
window. -/
def c6Input : List (Option Ev) :=
  [mkEv 0 1, mkEv 5 2, mkEv 10 1, mkEv 15 2, mkEv 20 1, mkEv 25 2,
   mkEv 30 1, mkEv 35 2, mkEv 40 1, mkEv 45 2, mkEv 50 1, mkEv 64 3]

/-- Three valid events at `t = 0, 30, 100`: with `window_size=60`,
`stride=30` the event at `t = 30` falls into both `[0,60)` and `[30,90)`. -/
def c2SlidingInput : List (Option Ev) := [mkEv 0 1, mkEv 30 2, mkEv 100 3]

/-- Three valid events at `t = 0, 80, 300`, used with `stride=120 >
window_size=60`: the engine accepts the configuration and processes the
stream (the events at `t = 80` and `t = 300` are pruned without ever being
emitted). -/
def c7StreamInput : List (Option Ev) := [mkEv 0 1, mkEv 80 2, mkEv 300 3]

/-- Three events whose templates are `[1, 2, 2]`: one singleton template
among three events, so the unrounded rare ratio is `1/3`. -/
def c9Input : List (Option Ev) := [mkEv 0 1, mkEv 1 2, mkEv 2 2]

/-- The window events of `c9Input` as one (flushed) window. -/
def c9Events : List Ev := [⟨0, 1, some 1, 1⟩, ⟨1, 2, some 1, 1⟩, ⟨2, 2, some 1, 1⟩]

/-! ## C1 — half-open window boundaries

For a time-ordered stream (the code's standing assumption: "buffer is
time-ordered", features.py line 197) and a spec-legal configuration
(`0 < stride ≤ window_size`), every in-loop emission with loop variables
`(next_window_start, window_end)` contains *exactly* the valid input events
whose event time lies in the half-open interval
`[next_window_start, next_window_start + window_size)` — in particular an
event with `event_time = window_end` is excluded and lands in a later
window. -/

lemma takeWhile_lt_eq_filter (c : ℤ) :
    ∀ (l : List Ev), l.Pairwise (fun a b => a.ts ≤ b.ts) →
      l.takeWhile (fun e => decide (e.ts < c)) = l.filter (fun e => decide (e.ts < c)) := by
  intro l
  induction l with
  | nil => intro _; rfl
  | cons a t ih =>
    intro hp
    rw [List.pairwise_cons] at hp
    by_cases ha : a.ts < c
    · simp only [List.takeWhile_cons, List.filter_cons, decide_eq_true ha, if_true,
        ih hp.2]
    · simp only [List.takeWhile_cons, List.filter_cons, decide_eq_false ha,
        Bool.false_eq_true, if_false]
      symm
      rw [List.filter_eq_nil_iff]
      intro x hx
      simp only [decide_eq_true_eq]
      exact fun hlt => ha (lt_of_le_of_lt (hp.1 x hx) hlt)

lemma dropWhile_lt_eq_filter (c : ℤ) :
    ∀ (l : List Ev), l.Pairwise (fun a b => a.ts ≤ b.ts) →
      l.dropWhile (fun e => decide (e.ts < c)) = l.filter (fun e => decide (c ≤ e.ts)) := by
  intro l
  induction l with
  | nil => intro _; rfl
  | cons a t ih =>
    intro hp
    rw [List.pairwise_cons] at hp
    by_cases ha : a.ts < c
    · simp only [List.dropWhile_cons, List.filter_cons, decide_eq_true ha, if_true,
        decide_eq_false (not_le.mpr ha), Bool.false_eq_true, if_false, ih hp.2]
    · simp only [List.dropWhile_cons, List.filter_cons, decide_eq_false ha,
        Bool.false_eq_true, if_false, decide_eq_true (not_lt.mp ha), if_true]
      congr 1
      symm
      rw [List.filter_eq_self]
      intro x hx
      simp only [decide_eq_true_eq]
      exact le_trans (not_lt.mp ha) (hp.1 x hx)

lemma filter_ge_ge (a b : ℤ) (hab : a ≤ b) :
    ∀ (l : List Ev),
      (l.filter (fun e => decide (a ≤ e.ts))).filter (fun e => decide (b ≤ e.ts)) =
        l.filter (fun e => decide (b ≤ e.ts)) := by
  intro l
  induction l with
  | nil => rfl
  | cons x t ih =>
    by_cases hxa : a ≤ x.ts
    · by_cases hxb : b ≤ x.ts
      · simp [List.filter_cons, hxa, hxb, ih]
      · simp [List.filter_cons, hxa, hxb, ih]
    · have hxb : ¬ b ≤ x.ts := fun h => hxa (le_trans hab h)
      simp [List.filter_cons, hxa, hxb, ih]

lemma filter_ge_lt_span (a c : ℤ) :
    ∀ (l : List Ev),
      (l.filter (fun e => decide (a ≤ e.ts))).filter (fun e => decide (e.ts < c)) =
        l.filter (fun e => decide (a ≤ e.ts ∧ e.ts < c)) := by
  intro l
  induction l with
  | nil => rfl
  | cons x t ih =>
    by_cases hxa : a ≤ x.ts
    · by_cases hxc : x.ts < c
      · simp [List.filter_cons, hxa, hxc, ih]
      · simp [List.filter_cons, hxa, hxc, ih]
    · simp [List.filter_cons, hxa, ih]

lemma filter_span_nil (a c : ℤ) (l : List Ev) (h : ∀ f ∈ l, c ≤ f.ts) :
    l.filter (fun e => decide (a ≤ e.ts ∧ e.ts < c)) = [] := by
  rw [List.filter_eq_nil_iff]
  intro x hx
  simp only [decide_eq_true_eq, not_and, not_lt]
  exact fun _ => h x hx

/-- Every recorded emission is a half-open full-stream window: its loop
window-end is `wstart + size` and its events are exactly the valid events of
the whole input with `wstart ≤ ts < wstart + size`. -/
def EmissionsOK (size : ℤ) (allValid : List Ev) (ems : List Emission) : Prop :=
  ∀ em ∈ ems, em.wend = em.wstart + size ∧
    em.events = allValid.filter
      (fun e => decide (em.wstart ≤ e.ts ∧ e.ts < em.wstart + size))

lemma sweepEmit_emissions_ok (size next : ℤ) (allValid : List Ev) (st : ProcState)
    (evw : List Ev) (hem : EmissionsOK size allValid st.emitted)
    (hw : evw = allValid.filter (fun e => decide (next ≤ e.ts ∧ e.ts < next + size))) :
    EmissionsOK size allValid (sweepEmit size next st evw).emitted := by
  unfold sweepEmit
  by_cases hE : evw.isEmpty
  · rw [if_pos hE]
    exact hem
  · rw [if_neg hE]
    simp only [process_window]
    rw [if_neg hE]
    dsimp only
    intro em hm
    rw [List.mem_append] at hm
    rcases hm with hm | hm
    · exact hem em hm
    · rw [List.mem_singleton] at hm
      subst hm
      exact ⟨rfl, hw⟩

lemma sweep_window_inv (size stride : ℤ) (h0 : 0 < stride) (h1 : stride ≤ size)
    (allValid past future : List Ev) (event_ts : ℤ)
    (hsplit : allValid = past ++ future)
    (hsorted : allValid.Pairwise (fun a b => a.ts ≤ b.ts))
    (_hpast_le : ∀ p ∈ past, p.ts ≤ event_ts)
    (hfuture_ge : ∀ f ∈ future, event_ts ≤ f.ts) :
    ∀ (fuel : ℕ) (next : ℤ) (st : ProcState),
      st.events_buffer = past.filter (fun e => decide (next ≤ e.ts)) →
      (∀ f ∈ future, next ≤ f.ts) →
      EmissionsOK size allValid st.emitted →
      (sweep size stride event_ts fuel next st).2.events_buffer =
        past.filter (fun e => decide ((sweep size stride event_ts fuel next st).1 ≤ e.ts)) ∧
      (∀ f ∈ future, (sweep size stride event_ts fuel next st).1 ≤ f.ts) ∧
      EmissionsOK size allValid (sweep size stride event_ts fuel next st).2.emitted := by
  have hpast_sorted : past.Pairwise (fun a b => a.ts ≤ b.ts) := by
    rw [hsplit] at hsorted
    exact (List.pairwise_append.mp hsorted).1
  intro fuel
  induction fuel with
  | zero => intro next st hbuf hnext hem; exact ⟨hbuf, hnext, hem⟩
  | succ n ih =>
    intro next st hbuf hnext hem
    simp only [sweep]
    by_cases hg : event_ts < next + size
    · rw [if_pos hg]
      exact ⟨hbuf, hnext, hem⟩
    · rw [if_neg hg]
      have hge : next + size ≤ event_ts := not_lt.mp hg
      have hbuf_sorted : st.events_buffer.Pairwise (fun a b => a.ts ≤ b.ts) := by
        rw [hbuf]; exact hpast_sorted.filter _
      -- the events taken for this window
      have htake : st.events_buffer.takeWhile (fun e => decide (e.ts < next + size)) =
          allValid.filter (fun e => decide (next ≤ e.ts ∧ e.ts < next + size)) := by
        rw [takeWhile_lt_eq_filter _ _ hbuf_sorted, hbuf, filter_ge_lt_span, hsplit,
          List.filter_append, filter_span_nil next (next + size) future
            (fun f hf => le_trans hge (hfuture_ge f hf)), List.append_nil]
      -- the buffer after the prune
      have hdrop : ∀ (buf : List Ev), buf = st.events_buffer →
          buf.dropWhile (fun e => decide (e.ts < next + stride)) =
            past.filter (fun e => decide (next + stride ≤ e.ts)) := by
        intro buf hb
        subst hb
        rw [dropWhile_lt_eq_filter _ _ hbuf_sorted, hbuf, filter_ge_ge next (next + stride)
          (by omega)]
      -- future events stay at or after the advanced start
      have hnext' : ∀ f ∈ future, next + stride ≤ f.ts := fun f hf =>
        le_trans (by omega) (le_trans hge (hfuture_ge f hf))
      refine ih (next + stride) _ ?_ hnext' ?_
      · dsimp only
        rw [sweepEmit_events_buffer]
        exact hdrop _ rfl
      · dsimp only
        exact sweepEmit_emissions_ok size next allValid st _ hem htake

/-- The state invariant threaded through the ingestion fold: all past
emissions are full-stream half-open windows, and (once anchored) the buffer
holds exactly the past valid events at or after `next_window_start`, which
also bounds every future event from below. -/
def StateInv (size : ℤ) (allValid past future : List Ev) (st : ProcState) : Prop :=
  EmissionsOK size allValid st.emitted ∧
  ((st.next_window_start = none ∧ past = [] ∧ st.events_buffer = []) ∨
   (∃ next, st.next_window_start = some next ∧
      st.events_buffer = past.filter (fun e => decide (next ≤ e.ts)) ∧
      (∀ f ∈ future, next ≤ f.ts)))

lemma ingest_step_inv (size stride : ℤ) (h0 : 0 < stride) (h1 : stride ≤ size)
    (allValid past future : List Ev) (e : Ev)
    (hsplit : allValid = past ++ e :: future)
    (hsorted : allValid.Pairwise (fun a b => a.ts ≤ b.ts))
    (st : ProcState) (hinv : StateInv size allValid past (e :: future) st) :
    StateInv size allValid (past ++ [e]) future (ingest size stride st (some e)) := by
  obtain ⟨hem, hanchor⟩ := hinv
  have hsplit' : allValid = (past ++ [e]) ++ future := by
    rw [hsplit, List.append_assoc, List.singleton_append]
  have hpairs := List.pairwise_append.mp (hsplit ▸ hsorted)
  have hcons := List.pairwise_cons.mp hpairs.2.1
  have hpast_le : ∀ p ∈ past ++ [e], p.ts ≤ e.ts := by
    intro p hp
    rw [List.mem_append, List.mem_singleton] at hp
    rcases hp with hp | rfl
    · exact hpairs.2.2 p hp e (by simp)
    · exact le_refl _
  have hfuture_ge : ∀ f ∈ future, e.ts ≤ f.ts := hcons.1
  rcases hanchor with ⟨hns, hpastnil, hbufnil⟩ | ⟨next, hns, hbuf, hfut⟩
  · -- first valid event: the anchor is set to e.ts
    subst hpastnil
    have hbuf1 : st.events_buffer ++ [e] =
        ([] ++ [e] : List Ev).filter (fun x => decide (e.ts ≤ x.ts)) := by
      rw [hbufnil]
      simp
    have hsw := sweep_window_inv size stride h0 h1 allValid ([] ++ [e]) future e.ts
      hsplit' hsorted hpast_le hfuture_ge
      (iterCount size stride e.ts e.ts) e.ts
      { st with events_buffer := st.events_buffer ++ [e], next_window_start := some e.ts }
      hbuf1 hfuture_ge hem
    unfold ingest
    rw [hns]
    simp only [Option.getD_none]
    exact ⟨hsw.2.2, Or.inr ⟨_, rfl, hsw.1, hsw.2.1⟩⟩
  · -- already anchored at `next`
    have hnexte : next ≤ e.ts := hfut e (by simp)
    have hbuf1 : st.events_buffer ++ [e] =
        (past ++ [e]).filter (fun x => decide (next ≤ x.ts)) := by
      rw [hbuf, List.filter_append]
      simp [hnexte]
    have hsw := sweep_window_inv size stride h0 h1 allValid (past ++ [e]) future e.ts
      hsplit' hsorted hpast_le hfuture_ge
      (iterCount size stride e.ts next) next
      { st with events_buffer := st.events_buffer ++ [e], next_window_start := some next }
      hbuf1 (fun f hf => hfut f (by simp [hf])) hem
    unfold ingest
    rw [hns]
    simp only [Option.getD_some]
    exact ⟨hsw.2.2, Or.inr ⟨_, rfl, hsw.1, hsw.2.1⟩⟩

lemma foldl_window_inv (size stride : ℤ) (h0 : 0 < stride) (h1 : stride ≤ size)
    (allValid : List Ev) (hsorted : allValid.Pairwise (fun a b => a.ts ≤ b.ts)) :
    ∀ (rest : List (Option Ev)) (past : List Ev) (st : ProcState),
      allValid = past ++ validEvents rest →
      StateInv size allValid past (validEvents rest) st →
      EmissionsOK size allValid (rest.foldl (ingest size stride) st).emitted := by
  intro rest
  induction rest with
  | nil => intro past st _ hinv; exact hinv.1
  | cons a l ih =>
    intro past st hsplit hinv
    simp only [List.foldl_cons]
    cases a with
    | none =>
      refine ih past st ?_ ?_
      · simpa [validEvents] using hsplit
      · simpa [validEvents] using hinv
    | some e =>
      refine ih (past ++ [e]) (ingest size stride st (some e)) ?_ ?_
      · rw [hsplit]
        simp [validEvents]
      · refine ingest_step_inv size stride h0 h1 allValid past (validEvents l) e ?_
          hsorted st ?_
        · rw [hsplit]
          simp [validEvents]
        · simpa [validEvents] using hinv

/-- C1: For a time-ordered input stream and any spec-legal parameters
`0 < stride ≤ window_size`, every window emitted by the processing loop is
the half-open interval `[wstart, wstart + window_size)`: it contains exactly
the valid input events with `wstart ≤ event_time < wstart + window_size`.
In particular an event whose event time equals the window's end is excluded
from it and (being a valid event at or after the next start) belongs to a
later window — the witness instantiates this with window_size = stride = 60
and an event at `t = 60`, which lands in the emitted window `[60, 120)` and
not in `[0, 60)`. -/
theorem c1_window_boundary_half_open (window_size_sec window_stride_sec : ℤ)
    (input : List (Option Ev))
    (h0 : 0 < window_stride_sec) (h1 : window_stride_sec ≤ window_size_sec)
    (hsorted : (validEvents input).Pairwise (fun a b => a.ts ≤ b.ts)) :
    ∀ em ∈ (stream_processor window_size_sec window_stride_sec input).emissions,
      em.wend = em.wstart + window_size_sec ∧
      em.events = (validEvents input).filter
        (fun e => decide (em.wstart ≤ e.ts ∧ e.ts < em.wstart + window_size_sec)) := by
  have h := foldl_window_inv window_size_sec window_stride_sec h0 h1
    (validEvents input) hsorted input [] initState (by simp)
    ⟨fun em hm => absurd hm (List.not_mem_nil em), Or.inl ⟨rfl, rfl, rfl⟩⟩
  exact h

/-- The boundary scenario: events at `t = 0, 60, 130` with
window_size = stride = 60. -/
def c1BoundaryInput : List (Option Ev) := [mkEv 0 1, mkEv 60 2, mkEv 130 3]

/-- Witness for `c1_window_boundary_half_open`: on the boundary scenario the
windows are `[0,60)` holding only the `t = 0` event and `[60,120)` holding
only the `t = 60` event. -/
theorem c1_window_boundary_half_open_witness :
    ((0 : ℤ) < 60 ∧ (60 : ℤ) ≤ 60 ∧
      (validEvents c1BoundaryInput).Pairwise (fun a b => a.ts ≤ b.ts)) ∧
    (∀ em ∈ (stream_processor 60 60 c1BoundaryInput).emissions,
      em.wend = em.wstart + 60 ∧
      em.events = (validEvents c1BoundaryInput).filter
        (fun e => decide (em.wstart ≤ e.ts ∧ e.ts < em.wstart + 60))) ∧
    (stream_processor 60 60 c1BoundaryInput).emissions.map
        (fun em => (em.wstart, em.wend, em.events.map Ev.ts)) =
      [(0, 60, [0]), (60, 120, [60])] :=
  ⟨⟨by decide, by decide, by decide⟩,
   c1_window_boundary_half_open 60 60 c1BoundaryInput (by decide) (by decide) (by decide),
   by decide⟩

/-! ## C6 — end-to-end two-window scenario -/

/-- C6 (counterexample to the claim as stated): On the 12-event/65-second
scenario the first emitted window has `is_unseen_template = true`, not
`false`: `seen_templates` starts empty (features.py line 148), so every
template of the first window is unseen.  (The repository's own test
`tests/stream/test_features.py` line 113 asserts exactly this behaviour.) -/
theorem c6_first_window_unseen_cex :
    (stream_processor 60 60 c6Input).emissions.map
      (fun em => em.record.is_unseen_template) = [true] := by decide

/-- C6 (amended): On the 12-event scenario (window_size = stride = 60s,
one template of the second window absent from the first), the engine emits
exactly 2 windows — an 11-event window `[0,60)` and a 1-event window produced
by the final flush — and `is_unseen_template` is `true` on *both* windows:
on the first because the initial `seen_templates` set is empty, on the second
because template 3 was never seen before. -/
theorem c6_end_to_end_scenario :
    (stream_processor 60 60 c6Input).emissions.map
      (fun em => (em.record.event_count, em.record.is_unseen_template)) = [(11, true)] ∧
    (stream_processor 60 60 c6Input).flushed.map
      (fun r => (r.event_count, r.is_unseen_template)) = some (1, true) := by
  exact ⟨by decide, by decide⟩

/-! ## C7 — eager configuration validation -/

/-- C7 (counterexample to the claim as stated): The windowing engine
performs no `stride > window_size` validation: with `window_size = 60` and
`stride = 120` it raises nothing, ingests the stream and emits a window —
and two of the three valid events are pruned without ever being emitted
(`totalEmittedCount = 1`). -/
theorem c7_no_stride_validation_cex :
    (stream_processor 60 120 c7StreamInput).emissions.map
      (fun em => (em.wstart, em.events.length)) = [(0, 1)] ∧
    totalEmittedCount (stream_processor 60 120 c7StreamInput) = 1 ∧
    (validEvents c7StreamInput).length = 3 := by
  exact ⟨by decide, by decide, by decide⟩

/-- C7 (amended): Constructing the perplexity scorer with `n < 2` raises
`ValueError` at construction, before any state exists (score.py lines 18-19),
and with `n ≥ 2` construction succeeds; the windowing engine, however,
performs no stride validation at setup: `stride > window_size` is accepted
and events are processed (and can be silently lost). -/
theorem c7_eager_validation :
    (∀ (n : ℕ) (k : ℚ), n < 2 →
      PerplexityScorer.init n k = .error "n must be at least 2 for n-gram models.") ∧
    (∀ (n : ℕ) (k : ℚ), 2 ≤ n → ∃ m, PerplexityScorer.init n k = .ok m) ∧
    (stream_processor 60 120 c7StreamInput).emissions.length = 1 := by
  refine ⟨?_, ?_, by decide⟩
  · intro n k h
    simp [PerplexityScorer.init, h]
  · intro n k h
    exact ⟨{ n := n, k := k, n_gram_counts := [], context_counts := [], vocab := [] },
      by simp [PerplexityScorer.init, Nat.not_lt.mpr h]⟩

/-- Witness for `c7_eager_validation` at `n = 1` and `n = 3`. -/
theorem c7_eager_validation_witness :
    PerplexityScorer.init 1 1 = .error "n must be at least 2 for n-gram models." ∧
    (∃ m, PerplexityScorer.init 3 1 = .ok m) :=
  ⟨c7_eager_validation.1 1 1 (by decide), c7_eager_validation.2.1 3 1 (by decide)⟩

/-! ## C9 — the rare-template-ratio invariant -/

lemma mkFeatureRec_rare_rate (evs : List Ev) (p s rc : List ℕ) (h : evs ≠ []) :
    (mkFeatureRec evs p s rc).rare_template_rate =
      round4 ((singletonTemplateCount evs : ℚ) / (evs.length : ℚ)) := by
  unfold mkFeatureRec
  simp [List.length_pos.mpr h]

lemma mkFeatureRec_event_count (evs : List Ev) (p s rc : List ℕ) :
    (mkFeatureRec evs p s rc).event_count = evs.length := rfl

/-- C9 (counterexample to the claim as stated): A flushed window of three
events with templates `[1, 2, 2]` (one singleton template) carries
`rare_template_rate = round(1/3, 4) = 0.3333`, and
`0.3333 · 3 = 0.9999` is neither the singleton count `1` nor an integer:
the 4-decimal rounding of features.py line 90 breaks the exact invariant. -/
theorem c9_rare_ratio_rounding_cex :
    (stream_processor 60 60 c9Input).flushed.map
      (fun r => r.rare_template_rate * (r.event_count : ℚ)) = some (9999/10000) ∧
    singletonTemplateCount c9Events = 1 ∧
    (9999/10000 : ℚ) ≠ ((1 : ℤ) : ℚ) ∧
    ((⌊(9999/10000 : ℚ)⌋ : ℚ)) ≠ (9999/10000 : ℚ) := by
  have hf : (stream_processor 60 60 c9Input).flushed =
      some (mkFeatureRec c9Events [] [] []) := rfl
  have hrate : (mkFeatureRec c9Events [] [] []).rare_template_rate = round4 (1/3) := by
    rw [mkFeatureRec_rare_rate c9Events [] [] [] (by decide)]
    norm_num [show singletonTemplateCount c9Events = 1 from by decide,
      show c9Events.length = 3 from rfl]
  have hround : round4 ((1 : ℚ)/3) = 3333/10000 := by
    unfold round4 roundHalfEvenInt
    have hfloor : ⌊(1 : ℚ)/3 * 10000⌋ = 3333 := by
      rw [Int.floor_eq_iff]
      constructor <;> norm_num
    rw [hfloor]
    norm_num
  refine ⟨?_, by decide, by norm_num, ?_⟩
  · rw [hf, Option.map_some']
    rw [show (mkFeatureRec c9Events [] [] []).event_count = 3 from rfl, hrate, hround]
    norm_num
  · have : ⌊(9999/10000 : ℚ)⌋ = 0 := by
      rw [Int.floor_eq_iff]
      constructor <;> norm_num
    rw [this]
    norm_num

/-- C9 (amended): For every emitted `WindowFeatures` record, the emitted
`rare_template_rate` equals the singleton-template ratio rounded to 4 decimal
places, and the product of the *unrounded* ratio and `event_count` is an
integer equal to the number of template ids occurring exactly once in the
window; the emitted (rounded) field satisfies the product invariant only up
to that rounding. -/
theorem c9_rare_ratio_invariant (window_events : List Ev)
    (prev seen recent : List ℕ) (r : FeatureRec)
    (h : process_window window_events prev seen recent = some r) :
    r.rare_template_rate =
      round4 ((singletonTemplateCount window_events : ℚ) / (window_events.length : ℚ)) ∧
    ((singletonTemplateCount window_events : ℚ) / (window_events.length : ℚ)) *
        (window_events.length : ℚ) = (singletonTemplateCount window_events : ℚ) := by
  have hne : window_events ≠ [] := by
    intro he
    subst he
    simp [process_window] at h
  have hr : r = mkFeatureRec window_events prev seen recent := by
    unfold process_window at h
    rw [if_neg (by simp [hne])] at h
    injection h with h
    exact h.symm
  subst hr
  refine ⟨mkFeatureRec_rare_rate _ _ _ _ hne, ?_⟩
  exact div_mul_cancel₀ _ (Nat.cast_ne_zero.mpr (List.length_pos.mpr hne).ne')

/-- Witness for `c9_rare_ratio_invariant` on the concrete three-event
window. -/
theorem c9_rare_ratio_invariant_witness :
    (process_window c9Events [] [] [] = some (mkFeatureRec c9Events [] [] [])) ∧
    ((mkFeatureRec c9Events [] [] []).rare_template_rate =
      round4 ((singletonTemplateCount c9Events : ℚ) / (c9Events.length : ℚ)) ∧
    ((singletonTemplateCount c9Events : ℚ) / (c9Events.length : ℚ)) *
        (c9Events.length : ℚ) = (singletonTemplateCount c9Events : ℚ)) :=
  ⟨rfl, c9_rare_ratio_invariant c9Events [] [] [] _ rfl⟩

/-! ## C2 — flush completeness

The event-conservation argument: in each loop iteration the events emitted
are `takeWhile (ts < next + size)` of the buffer and the events pruned are
`dropWhile (ts < next + stride)`; for a tumbling configuration
(`stride = size`) these split the buffer exactly, so
`Σ event_count + |buffer|` is invariant, and the flush empties the buffer
into one final record. -/

lemma takeWhile_dropWhile_length {α} (p : α → Bool) (l : List α) :
    (l.takeWhile p).length + (l.dropWhile p).length = l.length := by
  conv_rhs => rw [← List.takeWhile_append_dropWhile (p := p) (l := l)]
  rw [List.length_append]

lemma sweepEmit_emitted_sum (size next : ℤ) (st : ProcState) (evw : List Ev) :
    ((sweepEmit size next st evw).emitted.map (fun em => em.record.event_count)).sum =
      (st.emitted.map (fun em => em.record.event_count)).sum + evw.length := by
  unfold sweepEmit
  by_cases hE : evw.isEmpty
  · rw [if_pos hE]
    have h0 : evw = [] := by simpa [List.isEmpty_iff] using hE
    simp [h0]
  · rw [if_neg hE]
    simp only [process_window]
    rw [if_neg hE]
    dsimp only
    simp [mkFeatureRec_event_count]

lemma sweep_emitted_count (size event_ts : ℤ) (fuel : ℕ) :
    ∀ (next : ℤ) (st : ProcState),
      ((sweep size size event_ts fuel next st).2.emitted.map
          (fun em => em.record.event_count)).sum +
        (sweep size size event_ts fuel next st).2.events_buffer.length
      = (st.emitted.map (fun em => em.record.event_count)).sum +
          st.events_buffer.length := by
  induction fuel with
  | zero => intro next st; rfl
  | succ n ih =>
    intro next st
    simp only [sweep]
    by_cases hg : event_ts < next + size
    · rw [if_pos hg]
    · rw [if_neg hg]
      rw [ih]
      dsimp only
      rw [sweepEmit_events_buffer, sweepEmit_emitted_sum]
      have h1 := takeWhile_dropWhile_length
        (fun e => decide (e.ts < next + size)) st.events_buffer
      omega

lemma ingest_emitted_count (size : ℤ) (st : ProcState) (ev : Option Ev) :
    ((ingest size size st ev).emitted.map (fun em => em.record.event_count)).sum +
      (ingest size size st ev).events_buffer.length
    = (st.emitted.map (fun em => em.record.event_count)).sum +
        st.events_buffer.length + (validEvents [ev]).length := by
  cases ev with
  | none => simp [ingest, validEvents]
  | some e =>
    simp only [ingest]
    rw [sweep_emitted_count]
    simp [validEvents]
    omega

lemma foldl_ingest_emitted_count (size : ℤ) (input : List (Option Ev)) :
    ∀ (st : ProcState),
      ((input.foldl (ingest size size) st).emitted.map
          (fun em => em.record.event_count)).sum +
        (input.foldl (ingest size size) st).events_buffer.length
      = (st.emitted.map (fun em => em.record.event_count)).sum +
          st.events_buffer.length + (validEvents input).length := by
  induction input with
  | nil => intro st; simp [validEvents]
  | cons a l ih =>
    intro st
    simp only [List.foldl_cons]
    rw [ih]
    have h := ingest_emitted_count size st a
    cases a <;> simp only [validEvents, List.filterMap_cons] at h ⊢ <;>
      simp at h ⊢ <;> omega

/-- C2 (counterexample to the claim as stated): With the (legal, sliding)
configuration `window_size = 60`, `stride = 30`, the three valid events at
`t = 0, 30, 100` produce windows `[0,60)` (2 events), `[30,90)` (1 event) and
a flush (1 event): the `event_count` sum is 4, not 3 — an event lying in two
overlapping windows is counted twice. -/
theorem c2_flush_completeness_cex :
    totalEmittedCount (stream_processor 60 30 c2SlidingInput) = 4 ∧
    (validEvents c2SlidingInput).length = 3 := by
  exact ⟨by decide, by decide⟩

/-- C2 (amended): For a *tumbling* configuration (`stride =
window_size`), the sum of `event_count` over all emitted windows including
the final flush equals the number of valid ingested events — no event lost,
none counted twice.  (For sliding configurations `stride < window_size`
events in overlapping windows are counted once per window, see the
counterexample.) -/
theorem c2_flush_completeness_tumbling (window_size_sec window_stride_sec : ℤ)
    (input : List (Option Ev)) (hpos : 0 < window_size_sec)
    (heq : window_stride_sec = window_size_sec) :
    totalEmittedCount (stream_processor window_size_sec window_stride_sec input) =
      (validEvents input).length := by
  subst heq
  have h := foldl_ingest_emitted_count window_stride_sec input initState
  rw [show initState.emitted = [] from rfl,
    show initState.events_buffer = [] from rfl] at h
  simp only [List.map_nil, List.sum_nil, List.length_nil, Nat.zero_add] at h
  unfold totalEmittedCount stream_processor
  dsimp only
  set st := input.foldl (ingest window_stride_sec window_stride_sec) initState with hst
  by_cases hb : st.events_buffer.isEmpty
  · rw [if_pos hb]
    have hbe : st.events_buffer = [] := by simpa [List.isEmpty_iff] using hb
    rw [hbe] at h
    simpa using h
  · rw [if_neg hb]
    simp only [process_window]
    rw [if_neg hb]
    simp only [mkFeatureRec_event_count]
    omega

/-- Witness for `c2_flush_completeness_tumbling` on a concrete tumbling
run. -/
theorem c2_flush_completeness_tumbling_witness :
    (0 : ℤ) < 60 ∧
    totalEmittedCount (stream_processor 60 60 c2SlidingInput) =
      (validEvents c2SlidingInput).length :=
  ⟨by decide, c2_flush_completeness_tumbling 60 60 c2SlidingInput (by decide) rfl⟩

/-! ## C3 — bounded fusion output -/

lemma npClip01_bounds (x : ℚ) : 0 ≤ npClip x 0 1 ∧ npClip x 0 1 ≤ 1 := by
  unfold npClip
  by_cases h1 : x < 0
  · norm_num [h1]
  · by_cases h2 : (1 : ℚ) < x
    · norm_num [h1, h2]
    · norm_num [h1, h2]
      exact ⟨not_lt.mp h1, not_lt.mp h2⟩

/-- C3: For every call to the fusion combiner — any (possibly absent or
non-finite) lm and novelty inputs, any finite intel score map, any kev id
list, any scaler parameters and any configured weights — the returned
`final_score` lies in `[0, 1]`: the final `np.clip(·, 0.0, 1.0)` of
late_fusion.py lines 55-61 guarantees it unconditionally. -/
theorem c3_final_score_bounded (lm_score iforest_score : Option ℚ)
    (epss_scores : List (ℕ × ℚ)) (kev_cves : List ℕ)
    (scaler_params : ScalerParams) (weights : Weights) :
    0 ≤ (combine_scores lm_score iforest_score epss_scores kev_cves
          scaler_params weights).1 ∧
    (combine_scores lm_score iforest_score epss_scores kev_cves
          scaler_params weights).1 ≤ 1 := by
  dsimp only [combine_scores]
  exact npClip01_bounds _

/-! ## C8 — sink failure does not affect the returned result -/

/-- C8 (counterexample to the claim as stated): When the persistence
upsert fails, nothing is reported: the handler is `except Exception: pass`
(late_fusion.py lines 80-82), so the failure is swallowed silently (while the
computed score is still returned). -/
theorem c8_silent_sink_failure_cex :
    (combine_scores_with_sink (some 10) (some (1/2)) [(1, 97/100)] [1]
        defaultScalerParams defaultWeights .writeFails).reported_errors = [] ∧
    (combine_scores_with_sink (some 10) (some (1/2)) [(1, 97/100)] [1]
        defaultScalerParams defaultWeights .writeFails).final_score = 347/500 := by
  refine ⟨rfl, ?_⟩
  norm_num [combine_scores_with_sink, combine_scores, pyScale, npClip, pyMaxVals,
    defaultScalerParams, defaultWeights]

/-- C8 (amended): For every fusion call and every sink outcome —
including a failing upsert — the returned final score and the full
normalized component breakdown equal those of the pure computation (the
failure is not propagated as an error), but the failure is swallowed
silently rather than reported. -/
theorem c8_result_preserved (lm_score iforest_score : Option ℚ)
    (epss_scores : List (ℕ × ℚ)) (kev_cves : List ℕ)
    (scaler_params : ScalerParams) (weights : Weights) (sink : SinkOutcome) :
    (combine_scores_with_sink lm_score iforest_score epss_scores kev_cves
        scaler_params weights sink).final_score =
      (combine_scores lm_score iforest_score epss_scores kev_cves
        scaler_params weights).1 ∧
    (combine_scores_with_sink lm_score iforest_score epss_scores kev_cves
        scaler_params weights sink).components =
      (combine_scores lm_score iforest_score epss_scores kev_cves
        scaler_params weights).2 ∧
    (combine_scores_with_sink lm_score iforest_score epss_scores kev_cves
        scaler_params weights .writeFails).reported_errors = [] := by
  cases sink <;> exact ⟨rfl, rfl, rfl⟩

/-! ## C4 — novelty score normalization -/

lemma foldl_min_const (c : ℝ) : ∀ (xs : List ℝ) (x : ℝ), x = c → (∀ y ∈ xs, y = c) →
    xs.foldl min x = c := by
  intro xs
  induction xs with
  | nil => intro x hx _; simpa using hx
  | cons a l ih =>
    intro x hx hall
    simp only [List.foldl_cons]
    refine ih _ ?_ (fun y hy => hall y (by simp [hy]))
    rw [hx, hall a (by simp)]
    exact min_self c

lemma foldl_max_const (c : ℝ) : ∀ (xs : List ℝ) (x : ℝ), x = c → (∀ y ∈ xs, y = c) →
    xs.foldl max x = c := by
  intro xs
  induction xs with
  | nil => intro x hx _; simpa using hx
  | cons a l ih =>
    intro x hx hall
    simp only [List.foldl_cons]
    refine ih _ ?_ (fun y hy => hall y (by simp [hy]))
    rw [hx, hall a (by simp)]
    exact max_self c

/-- C4 (counterexample to the claim as stated): A batch of two equal raw
scores does *not* normalize to `0.5`: `max − min = 0`, so numpy evaluates
`0/0 = nan` for every row (iforest.py lines 122-125). -/
theorem c4_all_equal_batch_cex :
    iforest_normalize [(-1/2 : ℝ), -1/2] = [none, none] ∧
    iforest_normalize [(-1/2 : ℝ), -1/2] ≠ [some (1/2), some (1/2)] := by
  have h : iforest_normalize [(-1/2 : ℝ), -1/2] = [none, none] := by
    unfold iforest_normalize
    rw [if_pos (by norm_num), if_pos (by simp [listMin, listMax])]
    rfl
  exact ⟨h, by rw [h]; simp⟩

/-- C4 (amended): For every scoring batch of raw scores: a batch with
more than one row and distinct extremes normalizes each raw score `r` to
`1 − (r − min)/(max − min)`; a batch of more than one row whose raw scores
are **all equal** produces `nan` (division `0/0`) for every row, *not* 0.5;
and a single-row batch is normalized to the sigmoid of the absolute raw
value, `1/(1 + exp(−|r|))`. -/
theorem c4_normalization :
    (∀ (raw_scores : List ℝ), 1 < raw_scores.length →
        listMax raw_scores - listMin raw_scores ≠ 0 →
        iforest_normalize raw_scores = raw_scores.map (fun r =>
          some (1 - (r - listMin raw_scores) /
            (listMax raw_scores - listMin raw_scores)))) ∧
    (∀ (raw_scores : List ℝ) (c : ℝ), 1 < raw_scores.length →
        (∀ x ∈ raw_scores, x = c) →
        iforest_normalize raw_scores = raw_scores.map (fun _ => none)) ∧
    (∀ r : ℝ, iforest_normalize [r] = [some (1 / (1 + Real.exp (-|r|)))]) := by
  refine ⟨?_, ?_, ?_⟩
  · intro raws hlen hne
    unfold iforest_normalize
    rw [if_pos hlen, if_neg hne]
  · intro raws c hlen hall
    have hne : raws ≠ [] := by
      intro h
      subst h
      simp at hlen
    obtain ⟨x, xs, rfl⟩ := List.exists_cons_of_ne_nil hne
    have hmn : listMin (x :: xs) = c :=
      foldl_min_const c xs x (hall x (by simp)) (fun y hy => hall y (by simp [hy]))
    have hmx : listMax (x :: xs) = c :=
      foldl_max_const c xs x (hall x (by simp)) (fun y hy => hall y (by simp [hy]))
    unfold iforest_normalize
    rw [if_pos hlen, if_pos (by rw [hmn, hmx, sub_self])]
  · intro r
    unfold iforest_normalize
    rw [if_neg (by simp)]
    simp

/-- Witness for `c4_normalization` on the batches `[2, 6]` and `[5]`. -/
theorem c4_normalization_witness :
    ((1 < ([(2 : ℝ), 6]).length) ∧ listMax [(2 : ℝ), 6] - listMin [(2 : ℝ), 6] ≠ 0) ∧
    iforest_normalize [(2 : ℝ), 6] = [(2 : ℝ), 6].map (fun r =>
      some (1 - (r - listMin [(2 : ℝ), 6]) / (listMax [(2 : ℝ), 6] - listMin [(2 : ℝ), 6]))) ∧
    iforest_normalize [(5 : ℝ)] = [some (1 / (1 + Real.exp (-|(5 : ℝ)|)))] :=
  ⟨⟨by norm_num, by
      simp only [listMax, listMin, List.foldl_cons, List.foldl_nil]
      rw [max_eq_right (by norm_num : (2:ℝ) ≤ 6), min_eq_left (by norm_num : (2:ℝ) ≤ 6)]
      norm_num⟩,
   c4_normalization.1 [(2 : ℝ), 6] (by norm_num) (by
      simp only [listMax, listMin, List.foldl_cons, List.foldl_nil]
      rw [max_eq_right (by norm_num : (2:ℝ) ≤ 6), min_eq_left (by norm_num : (2:ℝ) ≤ 6)]
      norm_num),
   c4_normalization.2.2 5⟩

/-! ## C5 — the perplexity formula and the missing ceiling -/

lemma probOf_pos (m : PerplexityScorer) (g : List Tok) (hk : 0 < m.k)
    (hv : m.vocab ≠ []) : 0 < probOf m g := by
  unfold probOf
  apply div_pos
  · exact add_pos_of_nonneg_of_pos (Nat.cast_nonneg _) hk
  · refine add_pos_of_nonneg_of_pos (Nat.cast_nonneg _) ?_
    exact mul_pos hk (by exact_mod_cast List.length_pos.mpr hv)

lemma accumLogProb_eq (m : PerplexityScorer) (hk : 0 < m.k) (hv : m.vocab ≠ []) :
    ∀ (gs : List (List Tok)) (acc : ℝ),
      accumLogProb m gs acc =
        some (acc + (gs.map (fun g => Real.logb 2 ((probOf m g : ℚ) : ℝ))).sum) := by
  intro gs
  induction gs with
  | nil => intro acc; simp [accumLogProb]
  | cons g rest ih =>
    intro acc
    rw [accumLogProb.eq_2, if_pos (probOf_pos m g hk hv), ih]
    simp only [List.map_cons, List.sum_cons, Option.some.injEq]
    ring

/-- C5 (amended): For every fitted scorer with smoothing `k > 0` and
non-empty vocabulary `V`, and every non-empty sequence, `score` returns
`2^(−(Σ log2 prob)/len)` where each n-gram probability is
`prob = (ngram_count + k)/(context_count + k·|V|)`.  The code applies **no
ceiling** to the returned value (see the counterexample: a score of
`1000001 > 1e6` is reachable). -/
theorem c5_perplexity_formula (m : PerplexityScorer) (sequence : List ℕ)
    (hk : 0 < m.k) (hv : m.vocab ≠ []) (hs : sequence ≠ []) :
    (m.score sequence).2 = some ((2 : ℝ) ^
      (-(((ngramsOf m.n (List.replicate (m.n - 1) Tok.pad ++ sequence.map Tok.id)).map
          (fun g => Real.logb 2 ((probOf m g : ℚ) : ℝ))).sum) / (sequence.length : ℝ))) := by
  unfold PerplexityScorer.score
  rw [if_neg (by simpa [List.isEmpty_iff] using hs),
    if_neg (by simpa using (List.length_pos.mpr hv).ne')]
  rw [accumLogProb_eq m hk hv]
  simp

/-- Witness model for `c5_perplexity_formula`: the scorer fitted on the
single sequence `[1, 2]`. -/
def c5WitnessModel : PerplexityScorer :=
  PerplexityScorer.fit
    { n := 3, k := 1, n_gram_counts := [], context_counts := [], vocab := [] } [[1, 2]]

/-- Witness for `c5_perplexity_formula` on a concrete fitted model and
sequence. -/
theorem c5_perplexity_formula_witness :
    (0 < c5WitnessModel.k ∧ c5WitnessModel.vocab ≠ [] ∧ ([1] : List ℕ) ≠ []) ∧
    (c5WitnessModel.score [1]).2 = some ((2 : ℝ) ^
      (-(((ngramsOf c5WitnessModel.n
            (List.replicate (c5WitnessModel.n - 1) Tok.pad ++ ([1] : List ℕ).map Tok.id)).map
          (fun g => Real.logb 2 ((probOf c5WitnessModel g : ℚ) : ℝ))).sum) /
        (([1] : List ℕ).length : ℝ))) :=
  ⟨⟨by decide, by decide, by decide⟩,
   c5_perplexity_formula c5WitnessModel [1] (by decide) (by decide) (by decide)⟩

/-- The empty scorer `PerplexityScorer(n=3, smoothing_alpha=1.0)`. -/
def scorerBase : PerplexityScorer :=
  { n := 3, k := 1, n_gram_counts := [], context_counts := [], vocab := [] }

/-- The scorer state reached by fitting `count` copies of the one-token
sequence `[0]` into `scorerBase`. -/
def bigFreqModel (count : ℕ) : PerplexityScorer :=
  { n := 3, k := 1,
    n_gram_counts := [([Tok.pad, Tok.pad, Tok.id 0], count)]
    context_counts := [([Tok.pad, Tok.pad], count)]
    vocab := [0] }

lemma fitSeq_bigFreq (m : ℕ) : fitSeq (bigFreqModel m) [0] = bigFreqModel (m + 1) := rfl

lemma fit_replicate_single (count : ℕ) :
    PerplexityScorer.fit scorerBase (List.replicate (count + 1) [0]) =
      bigFreqModel (count + 1) := by
  induction count with
  | zero => rfl
  | succ n ih =>
    unfold PerplexityScorer.fit at ih ⊢
    rw [List.replicate_succ', List.foldl_append, ih]
    simp only [List.foldl_cons, List.foldl_nil]
    exact fitSeq_bigFreq (n + 1)

lemma score_bigFreq (N : ℕ) :
    ((bigFreqModel N).score [1]).2 = some ((N : ℝ) + 1) := by
  have h1 : dictGetD (bigFreqModel N).n_gram_counts [Tok.pad, Tok.pad, Tok.id 1] 0 = 0 := rfl
  have h2 : dictGetD (bigFreqModel N).context_counts
      ([Tok.pad, Tok.pad, Tok.id 1].dropLast) 0 = N := rfl
  have hprob : probOf (bigFreqModel N) [Tok.pad, Tok.pad, Tok.id 1] = 1 / ((N : ℚ) + 1) := by
    unfold probOf
    rw [h1, h2]
    norm_num [bigFreqModel]
  unfold PerplexityScorer.score
  rw [if_neg (by decide), if_neg (by simp [bigFreqModel])]
  have hng : ngramsOf (bigFreqModel N).n
      (List.replicate ((bigFreqModel N).n - 1) Tok.pad ++ ([1] : List ℕ).map Tok.id) =
      [[Tok.pad, Tok.pad, Tok.id 1]] := rfl
  rw [hng, accumLogProb_eq (bigFreqModel N) (by norm_num [bigFreqModel])
    (by simp [bigFreqModel])]
  simp only [List.map_cons, List.map_nil, List.sum_cons, List.sum_nil, add_zero, zero_add]
  rw [hprob]
  have hx : (0 : ℝ) < (N : ℝ) + 1 := by positivity
  rw [show (((1 / ((N : ℚ) + 1)) : ℚ) : ℝ) = ((N : ℝ) + 1)⁻¹ by push_cast; rw [one_div]]
  rw [Real.logb_inv]
  simp only [List.length_cons, List.length_nil, Nat.zero_add, Nat.cast_one, neg_neg,
    div_one]
  rw [Real.rpow_logb (by norm_num) (by norm_num) hx]

/-- C5 (counterexample to the claim as stated): After fitting one million
copies of the sequence `[0]`, scoring the unseen token `[1]` returns
perplexity `1000001`, which exceeds the claimed ceiling of `1e6`: the code
applies no cap (score.py lines 39-72 contain none). -/
theorem c5_no_perplexity_ceiling_cex :
    ((PerplexityScorer.fit scorerBase (List.replicate 1000000 [0])).score [1]).2 =
      some 1000001 ∧ (1000000 : ℝ) < 1000001 := by
  refine ⟨?_, by norm_num⟩
  rw [show (1000000 : ℕ) = 999999 + 1 from by norm_num, fit_replicate_single 999999,
    score_bigFreq]
  norm_num

/-! ## C10 — scoring never mutates the model -/

/-- C10: `PerplexityScorer.score` never mutates the model: the model
state after a call (first component of the state-passing result) equals the
state before it — in particular `n_gram_counts`, `context_counts` and
`vocab` are unchanged (the method reads the tables with `dict.get`, which
does not insert) — and repeated calls on the same state return equal
values. -/
theorem c10_score_pure (m : PerplexityScorer) (sequence : List ℕ) :
    (m.score sequence).1 = m ∧
    (m.score sequence).1.n_gram_counts = m.n_gram_counts ∧
    (m.score sequence).1.context_counts = m.context_counts ∧
    (m.score sequence).1.vocab = m.vocab ∧
    ((m.score sequence).1.score sequence).2 = (m.score sequence).2 := by
  have h : (m.score sequence).1 = m := by
    unfold PerplexityScorer.score
    split
    · rfl
    · split
      · rfl
      · split <;> rfl
  exact ⟨h, by rw [h], by rw [h], by rw [h], by rw [h]⟩

end DOVAH
